import Mathlib

/-!
Shallow embedding of the Vegan Bites Hub bulk CSV recipe-import pipeline
(`server/csvImport.ts`, with the storage layer from `server/storage.ts` and
the schema of `shared/schema.ts`), together with theorems settling the
specification claims about it.

Modelling conventions:
* JavaScript strings are modelled as `List Char` (`Str`); `String.prototype.trim`
  is `trim` over the whitespace predicate `isWs`; `split(',')` is `splitComma`;
  `toLowerCase` is `lowerStr`.
* A possibly-absent CSV field (`undefined` in JS) is `Option Str`; JS truthiness
  of such a value (`!x` tests) is `truthy` (absent and empty strings are falsy);
  truthiness of a nullable numeric id is `numTruthy` (null and 0 are falsy).
* The database is a `Storage` value threaded explicitly: `getCuisines` is the
  `SELECT ... WHERE is_active = true` of `storage.getCuisines` (the `ORDER BY
  name` is not modelled: no theorem below depends on the relative order of two
  active cuisines whose names coincide case-insensitively, the only situation
  where that order is observable through `find?`);
  `createCuisine` models the `INSERT` against the `unique` constraint on
  `cuisines.name` declared in `shared/schema.ts`, with an extra `fails` flag for
  other storage errors (connectivity, races); `createRecipe` appends the recipe
  with the caller-supplied author id, as `storage.createRecipe` does via
  `{ ...recipe, authorId }`.
* Network effects of `validateS3ImageUrl` (the `fetch` HEAD probe) are an
  oracle `FetchOutcome` supplied per row in a `RowEnv`; a thrown error from
  `storage.createRecipe` is `RowEnv.recipeCreateFails` carrying the message.
* Each row additionally yields a `trace : List Stage` recording, in execution
  order, which pipeline stages the row reached, used for the temporal claims.
-/

namespace VeganBites

/-- JavaScript strings, modelled as lists of characters. -/
abbrev Str := List Char

/-- The whitespace characters relevant to `String.prototype.trim` in this model. -/
def isWs (c : Char) : Bool :=
  c = ' ' || c = '\t' || c = '\n' || c = '\r'

/-- Remove leading whitespace (`trimStart`). -/
def lstrip (s : Str) : Str := s.dropWhile isWs

/-- Remove trailing whitespace (`trimEnd`), by structural recursion. -/
def rstrip : Str → Str
  | [] => []
  | c :: cs =>
    match rstrip cs with
    | [] => if isWs c then [] else [c]
    | d :: ds => c :: d :: ds

/-- `String.prototype.trim`: drop leading and trailing whitespace. -/
def trim (s : Str) : Str := rstrip (lstrip s)

/-- `String.prototype.toLowerCase` (ASCII-adequate model). -/
def lowerStr (s : Str) : Str := s.map Char.toLower

/-- `String.prototype.split(',')`: split at every comma, keeping empty pieces. -/
def splitComma : Str → List Str
  | [] => [[]]
  | c :: cs =>
    if c = ',' then [] :: splitComma cs
    else
      match splitComma cs with
      | [] => [[c]]
      | t :: ts => (c :: t) :: ts

/-- JS truthiness of a possibly-absent string: `undefined` and `""` are falsy. -/
def truthy : Option Str → Bool
  | none => false
  | some s => !s.isEmpty

/-- JS truthiness of a nullable number: `null` and `0` are falsy. -/
def numTruthy : Option Nat → Bool
  | none => false
  | some n => n != 0

/-- JS template-literal rendering of a possibly-absent string
(`undefined` prints as the text "undefined"). -/
def jsShow : Option Str → Str
  | none => "undefined".data
  | some s => s

/-- One parsed CSV row (`interface CSVRecipe`); each column may be absent. -/
structure CSVRecipe where
  country : Option Str
  recipeTitle : Option Str
  intro : Option Str
  ingredients : Option Str
  method : Option Str
  helpfulNotes : Option Str
  imageUrl : Option Str
  keywords : Option Str
deriving DecidableEq

/-- A stored cuisine row (`cuisines` table of `shared/schema.ts`). -/
structure Cuisine where
  id : Nat
  name : Str
  isActive : Bool
deriving DecidableEq

/-- A stored recipe row (`recipes` table), restricted to the columns written
by the import pipeline. -/
structure Recipe where
  id : Nat
  title : Str
  description : Str
  ingredients : Str
  instructions : Str
  helpfulNotes : Str
  cuisineId : Nat
  tags : List Str
  featuredImage : Str
  isApproved : Bool
  authorId : Str
deriving DecidableEq

/-- The database state threaded through the pipeline. -/
structure Storage where
  cuisines : List Cuisine
  recipes : List Recipe
  nextCuisineId : Nat
  nextRecipeId : Nat
deriving DecidableEq

/-- `storage.getCuisines()`: `SELECT * FROM cuisines WHERE is_active = true`. -/
def getCuisines (s : Storage) : List Cuisine :=
  s.cuisines.filter (fun c => c.isActive)

/-- `storage.createCuisine`: insert a cuisine row. The insert throws (returns
`none`) when the `unique` constraint on `name` is violated or when `fails`
signals an external storage error. -/
def createCuisine (fails : Bool) (s : Storage) (name : Str) (isActive : Bool) :
    Option (Cuisine × Storage) :=
  if fails || s.cuisines.any (fun c => c.name = name) then none
  else
    let c : Cuisine := ⟨s.nextCuisineId, name, isActive⟩
    some (c, { s with cuisines := s.cuisines ++ [c],
                      nextCuisineId := s.nextCuisineId + 1 })

/-- `storage.createRecipe(recipe, authorId)`: insert `{ ...recipe, authorId }`. -/
def createRecipe (s : Storage) (r : Recipe) : Recipe × Storage :=
  let r' := { r with id := s.nextRecipeId }
  (r', { s with recipes := s.recipes ++ [r'],
                nextRecipeId := s.nextRecipeId + 1 })

/-- The hardcoded country → cuisine canonicalization table of
`findOrCreateCuisine` (`countryToCuisineMap`); lookup is by exact,
case-sensitive key as in a JS object. -/
def countryToCuisineMap (k : Str) : Option Str :=
  if k = "Italy".data then some "Italian".data
  else if k = "Greece".data then some "Greek".data
  else if k = "Mexico".data then some "Mexican".data
  else if k = "Spain".data then some "Spanish".data
  else if k = "France".data then some "French".data
  else if k = "China".data then some "Chinese".data
  else if k = "Japan".data then some "Japanese".data
  else if k = "Thailand".data then some "Thai".data
  else if k = "India".data then some "Indian".data
  else if k = "Turkey".data then some "Turkish".data
  else if k = "Lebanon".data then some "Lebanese".data
  else if k = "Morocco".data then some "Moroccan".data
  else if k = "United States".data then some "American".data
  else if k = "USA".data then some "American".data
  else if k = "UK".data then some "British".data
  else if k = "United Kingdom".data then some "British".data
  else none

/-- `findOrCreateCuisine(cuisineName)`: trim, canonicalize through the table,
look up the active cuisines case-insensitively, create on miss. `createFails`
is the oracle for a thrown `storage.createCuisine` (caught and turned into
`null`). Returns the resolved id (or `none`) and the updated storage. -/
def findOrCreateCuisine (createFails : Bool) (cuisineName : Option Str)
    (s : Storage) : Option Nat × Storage :=
  match cuisineName with
  | none => (none, s)
  | some n =>
    if n.isEmpty then (none, s)
    else if (trim n).isEmpty then (none, s)
    else
      let cleanName := trim n
      let searchName := (countryToCuisineMap cleanName).getD cleanName
      match (getCuisines s).find?
          (fun c => lowerStr c.name = lowerStr searchName) with
      | some c => (some c.id, s)
      | none =>
        match createCuisine createFails s searchName true with
        | none => (none, s)
        | some (c, s') => (some c.id, s')

/-- `String.prototype.includes`: `includes hay needle` is `hay.includes(needle)`. -/
def includes (hay needle : Str) : Bool :=
  match hay with
  | [] => needle.isEmpty
  | _ :: t => needle.isPrefixOf hay || includes t needle

/-- Outcome of the `fetch(imageUrl, { method: 'HEAD' })` probe inside
`validateS3ImageUrl`: a 2xx response, a non-ok response, or a thrown error. -/
inductive FetchOutcome
  | ok
  | notOk
  | fetchError
deriving DecidableEq

/-- `validateS3ImageUrl(imageUrl)`: accept own-bucket S3 URLs directly,
otherwise probe with a HEAD request; every branch — ok, non-ok (warn), thrown
error (catch) — returns the URL that was passed in. -/
def validateS3ImageUrl (bucket : Str) (fetch : FetchOutcome) (imageUrl : Str) :
    Str :=
  if includes imageUrl bucket && includes imageUrl "amazonaws.com".data then
    imageUrl
  else
    match fetch with
    | .ok => imageUrl
    | .notOk => imageUrl
    | .fetchError => imageUrl

/-- Per-job configuration: the S3 bucket name from the environment and the
author id passed to `importRecipesFromCSV`. -/
structure Config where
  bucket : Str
  authorId : Str

/-- Per-row oracle for the row's external effects: the image-probe outcome,
whether `storage.createCuisine` throws, and whether `storage.createRecipe`
throws (carrying the thrown error's message). -/
structure RowEnv where
  fetch : FetchOutcome
  cuisineCreateFails : Bool
  recipeCreateFails : Option Str

/-- Pipeline stages a row can reach, in the order the loop body runs them. -/
inductive Stage
  | validated
  | imageResolved
  | cuisineResolved
  | persisted
  | failed
deriving DecidableEq

/-- Position of a stage in the code's execution order. -/
def stageIdx : Stage → Nat
  | .validated => 0
  | .imageResolved => 1
  | .cuisineResolved => 2
  | .persisted => 3
  | .failed => 4

/-- The required-field check of the loop body:
`!row['Recipe Title'] || !row.Ingredients || !row.Method` skips the row. -/
def validateRow (row : CSVRecipe) : Bool :=
  truthy row.recipeTitle && truthy row.ingredients && truthy row.method

/-- The guard `row['Image url'] && row['Image url'].trim()` deciding whether
image-resolution work happens for the row. -/
def imageBranch (row : CSVRecipe) : Bool :=
  truthy row.imageUrl && !(trim (row.imageUrl.getD [])).isEmpty

/-- The guard `row.Keywords && row.Keywords.trim()` deciding whether the
Keywords column is parsed into tags. -/
def keywordsBranch (row : CSVRecipe) : Bool :=
  truthy row.keywords && !(trim (row.keywords.getD [])).isEmpty

/-- `row.Keywords.trim().split(',').map(tag => tag.trim()).filter(tag =>
tag.length > 0)`. -/
def parseTags (kw : Str) : List Str :=
  ((splitComma (trim kw)).map trim).filter (fun t => !t.isEmpty)

/-- The tag list the loop computes for a row. -/
def tagsOf (row : CSVRecipe) : List Str :=
  if keywordsBranch row then parseTags (row.keywords.getD []) else []

/-- The featured-image URL the loop computes for a row (`''` when the image
branch is not taken). -/
def featuredImageOf (cfg : Config) (env : RowEnv) (row : CSVRecipe) : Str :=
  if imageBranch row then
    validateS3ImageUrl cfg.bucket env.fetch (trim (row.imageUrl.getD []))
  else []

/-- `Skipping recipe "${row['Recipe Title'] || 'Unknown'}": Missing required
fields`. -/
def skipMsg (title : Option Str) : Str :=
  "Skipping recipe \"".data ++
    (if truthy title then title.getD [] else "Unknown".data) ++
    "\": Missing required fields".data

/-- `Recipe "${row['Recipe Title']}": Could not determine cuisine from country
"${row.Country}"`. -/
def cuisineMsg (row : CSVRecipe) : Str :=
  "Recipe \"".data ++ row.recipeTitle.getD [] ++
    "\": Could not determine cuisine from country \"".data ++
    jsShow row.country ++ "\"".data

/-- `Error creating recipe "${row['Recipe Title']}": ${error.message}`. -/
def persistMsg (row : CSVRecipe) (m : Str) : Str :=
  "Error creating recipe \"".data ++ row.recipeTitle.getD [] ++ "\": ".data ++ m

/-- The `recipeData` object the loop builds for a validated row. -/
def mkRecipe (row : CSVRecipe) (cid : Nat) (tags : List Str)
    (featuredImage : Str) (authorId : Str) : Recipe where
  id := 0
  title := trim (row.recipeTitle.getD [])
  description := if truthy row.intro then trim (row.intro.getD []) else []
  ingredients := trim (row.ingredients.getD [])
  instructions := trim (row.method.getD [])
  helpfulNotes :=
    if truthy row.helpfulNotes then trim (row.helpfulNotes.getD []) else []
  cuisineId := cid
  tags := tags
  featuredImage := featuredImage
  isApproved := false
  authorId := authorId

/-- What one loop iteration contributed to the job result: whether
`successCount` was incremented, the error strings appended (zero or one), and
the trace of stages the row reached. -/
structure RowResult where
  success : Bool
  errs : List Str
  trace : List Stage
deriving DecidableEq

/-- The stages a validated row has reached before cuisine resolution: the
image-resolution event appears exactly when the image branch runs. -/
def preTraceOf (row : CSVRecipe) : List Stage :=
  Stage.validated :: (if imageBranch row then [Stage.imageResolved] else [])

/-- One iteration of the row loop of `importRecipesFromCSV`: validate, resolve
the image URL, parse tags, resolve the cuisine (`if (!cuisineId)` is JS falsy,
so `null` and `0` both fail the row), then persist inside the `try`/`catch`. -/
def processRow (cfg : Config) (env : RowEnv) (row : CSVRecipe) (s : Storage) :
    RowResult × Storage :=
  if !validateRow row then
    (⟨false, [skipMsg row.recipeTitle], [.failed]⟩, s)
  else
    let featuredImageUrl := featuredImageOf cfg env row
    let tags := tagsOf row
    let res := findOrCreateCuisine env.cuisineCreateFails row.country s
    if !numTruthy res.1 then
      (⟨false, [cuisineMsg row], preTraceOf row ++ [.failed]⟩, res.2)
    else
      match env.recipeCreateFails with
      | some m =>
        (⟨false, [persistMsg row m],
          preTraceOf row ++ [.cuisineResolved, .failed]⟩, res.2)
      | none =>
        let r := mkRecipe row (res.1.getD 0) tags featuredImageUrl cfg.authorId
        (⟨true, [], preTraceOf row ++ [.cuisineResolved, .persisted]⟩,
          (createRecipe res.2 r).2)

/-- The aggregate returned by `importRecipesFromCSV`:
`{ success: successCount, errors }`. -/
structure JobResult where
  success : Nat
  errors : List Str
deriving DecidableEq

/-- The row loop of `importRecipesFromCSV` over the parsed rows, each paired
with its effect oracle, threading the storage state in input order. -/
def runImport (cfg : Config) :
    List (CSVRecipe × RowEnv) → Storage → JobResult × Storage
  | [], s => (⟨0, []⟩, s)
  | p :: rest, s =>
    let pr := processRow cfg p.2 p.1 s
    let jr := runImport cfg rest pr.2
    (⟨(if pr.1.success then 1 else 0) + jr.1.success,
      pr.1.errs ++ jr.1.errors⟩, jr.2)

/-! ### Spec-side comparison definitions

These two definitions follow the wording of spec sentences (not the code) and
exist only to be compared against the code-derived definitions above. -/

/-- Modelled from the spec's words for the Row Validator contract: the row
"succeeds iff `Recipe Title`, `Ingredients`, and `Method` are present and
non-blank after trimming". -/
def specValidates (row : CSVRecipe) : Bool :=
  (match row.recipeTitle with | none => false | some t => !(trim t).isEmpty) &&
  (match row.ingredients with | none => false | some t => !(trim t).isEmpty) &&
  (match row.method with | none => false | some t => !(trim t).isEmpty)

/-- Modelled from the claim's words for the tag list: split the `Keywords`
field on commas, trim each token, drop empty tokens; the empty list when the
field is absent. -/
def specTags : Option Str → List Str
  | none => []
  | some kw => ((splitComma kw).map trim).filter (fun t => !t.isEmpty)

/-- The candidate canonical cuisine name for a country string: the table image
of the trimmed input when mapped, otherwise the trimmed input itself. -/
def candidateOf (country : Str) : Str :=
  (countryToCuisineMap (trim country)).getD (trim country)

/-- The per-job invariant on the cuisine store: at most one active cuisine per
case-insensitive name. -/
def CuisineInv (s : Storage) : Prop :=
  (getCuisines s).Pairwise (fun a b => lowerStr a.name ≠ lowerStr b.name)

/-- The ordering the claim about pipeline stages asserts: any cuisine
resolution event precedes any image-resolution event in the row's trace. -/
def cuisineBeforeImage (t : List Stage) : Prop :=
  ∀ i j : Fin t.length,
    t.get i = Stage.imageResolved → t.get j = Stage.cuisineResolved → j < i

/-! ### Concrete inputs for counterexamples and witnesses -/

/-- A concrete job configuration. -/
def cfg₀ : Config := ⟨"mybucket".data, "user-1".data⟩

/-- A benign row environment whose image probe reports a non-ok response. -/
def env₀ : RowEnv := ⟨.notOk, false, none⟩

/-- An empty storage state (fresh database). -/
def s₀ : Storage := ⟨[], [], 1, 1⟩

/-- A valid row with country "Italy". -/
def rowItaly : CSVRecipe :=
  ⟨some "Italy".data, some "Pasta".data, none, some "flour".data,
    some "boil".data, none, none, none⟩

/-- A valid row with country "italy" (lower case). -/
def rowitaly : CSVRecipe :=
  ⟨some "italy".data, some "Pizza".data, none, some "dough".data,
    some "bake".data, none, none, none⟩

/-- A valid row carrying an image URL. -/
def rowTacos : CSVRecipe :=
  ⟨some "Mexico".data, some "Tacos".data, none, some "salt".data,
    some "cook".data, none, some "http://img.example/t.jpg".data,
    some " quick, easy ".data⟩

/-- A row whose title is a single space: blank after trimming, yet truthy. -/
def rowBlankTitle : CSVRecipe :=
  ⟨some "Mexico".data, some " ".data, none, some "salt".data,
    some "cook".data, none, none, none⟩

/-- A row missing its `Method` column. -/
def rowNoMethod : CSVRecipe :=
  ⟨some "Mexico".data, some "Tacos".data, none, some "salt".data,
    none, none, none, none⟩

/-- A storage state holding one inactive cuisine whose name matches "Wakanda"
case-insensitively but not case-sensitively. -/
def sLower : Storage := ⟨[⟨1, "wakanda".data, false⟩], [], 2, 1⟩

/-! ### String lemmas: `trim` and `splitComma` -/

theorem isWs_comma : isWs ',' = false := by decide

theorem splitComma_cons (c : Char) (cs : Str) :
    splitComma (c :: cs) =
      if c = ',' then [] :: splitComma cs
      else
        match splitComma cs with
        | [] => [[c]]
        | t :: ts => (c :: t) :: ts := rfl

theorem splitComma_cons_comma (cs : Str) :
    splitComma (',' :: cs) = [] :: splitComma cs := by
  rw [splitComma_cons, if_pos rfl]

theorem splitComma_cons_ne {c : Char} {cs t : Str} {ts : List Str}
    (hc : ¬ c = ',') (h : splitComma cs = t :: ts) :
    splitComma (c :: cs) = (c :: t) :: ts := by
  rw [splitComma_cons, if_neg hc, h]

theorem splitComma_ne_nil (s : Str) : splitComma s ≠ [] := by
  induction s with
  | nil => simp [splitComma]
  | cons c cs ih =>
    rw [splitComma_cons]
    by_cases hc : c = ','
    · simp [hc]
    · simp only [if_neg hc]
      cases h : splitComma cs with
      | nil => exact absurd h ih
      | cons t ts => simp

theorem rstrip_eq_nil {s : Str} (h : rstrip s = []) :
    ∀ c ∈ s, isWs c = true := by
  induction s with
  | nil => simp
  | cons c cs ih =>
    intro x hx
    unfold rstrip at h
    cases hr : rstrip cs with
    | nil =>
      rw [hr] at h
      by_cases hw : isWs c
      · rcases List.mem_cons.mp hx with hx | hx
        · rw [hx]; exact hw
        · exact ih hr x hx
      · simp [hw] at h
    | cons d ds => rw [hr] at h; simp at h

theorem lstrip_eq_nil {s : Str} (h : ∀ c ∈ s, isWs c = true) :
    lstrip s = [] :=
  List.dropWhile_eq_nil_iff.mpr h

theorem trim_eq_nil {s : Str} (h : trim s = []) : ∀ c ∈ s, isWs c = true := by
  intro x hx
  have hsplit := List.takeWhile_append_dropWhile (p := isWs) (l := s)
  rw [← hsplit] at hx
  rcases List.mem_append.mp hx with hx | hx
  · exact List.mem_takeWhile_imp hx
  · exact rstrip_eq_nil h x hx

theorem noComma_splitComma {s : Str} (h : ∀ c ∈ s, ¬ c = ',') :
    splitComma s = [s] := by
  induction s with
  | nil => rfl
  | cons c cs ih =>
    have hc : ¬ c = ',' := h c (List.mem_cons_self c cs)
    unfold splitComma
    rw [if_neg hc, ih (fun x hx => h x (List.mem_cons_of_mem c hx))]

theorem splitComma_singleton {s t : Str} (h : splitComma s = [t]) : s = t := by
  induction s generalizing t with
  | nil => simpa [splitComma] using h.symm
  | cons c cs ih =>
    rw [splitComma_cons] at h
    by_cases hc : c = ','
    · rw [if_pos hc] at h
      have : splitComma cs = [] := by
        cases h' : splitComma cs
        · rfl
        · rw [h'] at h; simp at h
      exact absurd this (splitComma_ne_nil cs)
    · rw [if_neg hc] at h
      cases h' : splitComma cs with
      | nil => exact absurd h' (splitComma_ne_nil cs)
      | cons u us =>
        rw [h'] at h
        have h1 : c :: u = t := (List.cons_eq_cons.mp h).1
        have h2 : us = [] := (List.cons_eq_cons.mp h).2
        subst h2
        have := ih h'
        rw [← h1, this]

/-- Apply `f` to the first entry of a list. -/
def modHead (f : Str → Str) : List Str → List Str
  | [] => []
  | t :: ts => f t :: ts

/-- Apply `f` to the last entry of a list. -/
def modLast (f : Str → Str) : List Str → List Str
  | [] => []
  | [a] => [f a]
  | a :: b :: t => a :: modLast f (b :: t)

theorem lstrip_cons_of_ws {c : Char} {cs : Str} (h : isWs c = true) :
    lstrip (c :: cs) = lstrip cs := by
  simp [lstrip, List.dropWhile_cons, h]

theorem lstrip_cons_of_not_ws {c : Char} {cs : Str} (h : isWs c = false) :
    lstrip (c :: cs) = c :: cs := by
  simp [lstrip, List.dropWhile_cons, h]

theorem rstrip_cons (c : Char) (cs : Str) :
    rstrip (c :: cs) =
      match rstrip cs with
      | [] => if isWs c then [] else [c]
      | d :: ds => c :: d :: ds := rfl

theorem rstrip_cons_eq_nil {c : Char} {cs : Str} (hw : isWs c = true)
    (hr : rstrip cs = []) : rstrip (c :: cs) = [] := by
  rw [rstrip_cons, hr]; simp [hw]

theorem rstrip_cons_singleton {c : Char} {cs : Str} (hw : isWs c = false)
    (hr : rstrip cs = []) : rstrip (c :: cs) = [c] := by
  rw [rstrip_cons, hr]; simp [hw]

theorem rstrip_cons_of_ne_nil {c : Char} {cs : Str} (hr : rstrip cs ≠ []) :
    rstrip (c :: cs) = c :: rstrip cs := by
  rw [rstrip_cons]
  cases h : rstrip cs with
  | nil => exact absurd h hr
  | cons d ds => rfl

theorem splitComma_lstrip (s : Str) :
    splitComma (lstrip s) = modHead lstrip (splitComma s) := by
  induction s with
  | nil => rfl
  | cons c cs ih =>
    by_cases hw : isWs c
    · have hc : ¬ c = ',' := by
        intro he; rw [he] at hw; exact absurd hw (by decide)
      rw [lstrip_cons_of_ws hw, ih]
      cases h' : splitComma cs with
      | nil => exact absurd h' (splitComma_ne_nil cs)
      | cons t ts =>
        rw [splitComma_cons_ne hc h']
        simp only [modHead]
        rw [lstrip_cons_of_ws hw]
    · have hw' : isWs c = false := by simpa using hw
      rw [lstrip_cons_of_not_ws hw']
      by_cases hc : c = ','
      · subst hc
        rw [splitComma_cons_comma]
        simp [modHead, lstrip]
      · cases h' : splitComma cs with
        | nil => exact absurd h' (splitComma_ne_nil cs)
        | cons t ts =>
          rw [splitComma_cons_ne hc h']
          simp only [modHead]
          rw [lstrip_cons_of_not_ws hw']

theorem all_ws_no_comma {cs : Str} (hws : ∀ c ∈ cs, isWs c = true) :
    ∀ x ∈ cs, ¬ x = ',' := by
  intro x hx he
  have := hws x hx
  rw [he] at this
  exact absurd this (by decide)

theorem splitComma_rstrip (s : Str) :
    splitComma (rstrip s) = modLast rstrip (splitComma s) := by
  induction s with
  | nil => rfl
  | cons c cs ih =>
    by_cases hc : c = ','
    · subst hc
      have hw : isWs ',' = false := by decide
      cases hr : rstrip cs with
      | nil =>
        have hcs : splitComma cs = [cs] :=
          noComma_splitComma (all_ws_no_comma (rstrip_eq_nil hr))
        rw [rstrip_cons_singleton hw hr, splitComma_cons_comma cs, hcs]
        simp [splitComma, modLast, hr]
      | cons d ds =>
        have hne : rstrip cs ≠ [] := by rw [hr]; simp
        rw [rstrip_cons_of_ne_nil hne, splitComma_cons_comma,
          splitComma_cons_comma, ih]
        cases h' : splitComma cs with
        | nil => exact absurd h' (splitComma_ne_nil cs)
        | cons t ts => simp [modLast]
    · cases h' : splitComma cs with
      | nil => exact absurd h' (splitComma_ne_nil cs)
      | cons t ts =>
        cases hr : rstrip cs with
        | nil =>
          have hcs : splitComma cs = [cs] :=
            noComma_splitComma (all_ws_no_comma (rstrip_eq_nil hr))
          rw [hcs] at h'
          have ht : t = cs := ((List.cons_eq_cons.mp h').1).symm
          have hts : ts = [] := (List.cons_eq_cons.mp h').2.symm
          subst ht; subst hts
          by_cases hwc : isWs c
          · rw [rstrip_cons_eq_nil hwc hr, splitComma_cons_ne hc hcs]
            simp [splitComma, modLast, rstrip_cons_eq_nil hwc hr]
          · have hwc' : isWs c = false := by simpa using hwc
            rw [rstrip_cons_singleton hwc' hr, splitComma_cons_ne hc hcs]
            have h1 : splitComma [c] = [[c]] := by
              rw [show ([c] : Str) = c :: [] from rfl,
                splitComma_cons_ne hc (show splitComma [] = [[]] from rfl)]
            rw [h1]
            simp [modLast, rstrip_cons_singleton hwc' hr]
        | cons d ds =>
          have hne : rstrip cs ≠ [] := by rw [hr]; simp
          rw [rstrip_cons_of_ne_nil hne, splitComma_cons_ne hc h']
          cases h'' : splitComma (rstrip cs) with
          | nil => exact absurd h'' (splitComma_ne_nil _)
          | cons u us =>
            rw [splitComma_cons_ne hc h'']
            rw [ih, h'] at h''
            cases ts with
            | nil =>
              simp only [modLast] at h'' ⊢
              have hu : u = rstrip t := ((List.cons_eq_cons.mp h'').1).symm
              have hus : us = [] := (List.cons_eq_cons.mp h'').2.symm
              subst hu; subst hus
              have htcs : cs = t := splitComma_singleton h'
              subst htcs
              rw [rstrip_cons_of_ne_nil hne]
            | cons v vs =>
              simp only [modLast] at h'' ⊢
              have hu : u = t := ((List.cons_eq_cons.mp h'').1).symm
              have hus : us = modLast rstrip (v :: vs) :=
                (List.cons_eq_cons.mp h'').2.symm
              rw [hu, hus]

theorem lstrip_idem (s : Str) : lstrip (lstrip s) = lstrip s := by
  induction s with
  | nil => rfl
  | cons c cs ih =>
    by_cases hw : isWs c
    · rw [lstrip_cons_of_ws hw, ih]
    · have hw' : isWs c = false := by simpa using hw
      rw [lstrip_cons_of_not_ws hw', lstrip_cons_of_not_ws hw']

theorem rstrip_idem (s : Str) : rstrip (rstrip s) = rstrip s := by
  induction s with
  | nil => rfl
  | cons c cs ih =>
    cases hr : rstrip cs with
    | nil =>
      by_cases hw : isWs c
      · rw [rstrip_cons_eq_nil hw hr]; rfl
      · have hw' : isWs c = false := by simpa using hw
        have h1 : rstrip [c] = [c] := rstrip_cons_singleton hw' rfl
        rw [rstrip_cons_singleton hw' hr, h1]
    | cons d ds =>
      have hne : rstrip cs ≠ [] := by rw [hr]; simp
      rw [rstrip_cons_of_ne_nil hne]
      have hne2 : rstrip (rstrip cs) ≠ [] := by rw [ih]; exact hne
      rw [rstrip_cons_of_ne_nil hne2, ih]

theorem lstrip_rstrip_comm (s : Str) :
    lstrip (rstrip s) = rstrip (lstrip s) := by
  induction s with
  | nil => rfl
  | cons c cs ih =>
    by_cases hw : isWs c
    · rw [lstrip_cons_of_ws hw]
      cases hr : rstrip cs with
      | nil =>
        rw [rstrip_cons_eq_nil hw hr]
        have h1 : lstrip cs = [] := lstrip_eq_nil (rstrip_eq_nil hr)
        rw [show lstrip ([] : Str) = [] from rfl, h1]
        rfl
      | cons d ds =>
        have hne : rstrip cs ≠ [] := by rw [hr]; simp
        rw [rstrip_cons_of_ne_nil hne, lstrip_cons_of_ws hw, ih]
    · have hw' : isWs c = false := by simpa using hw
      rw [lstrip_cons_of_not_ws hw']
      cases hr : rstrip cs with
      | nil =>
        rw [rstrip_cons_singleton hw' hr]
        exact lstrip_cons_of_not_ws hw'
      | cons d ds =>
        have hne : rstrip cs ≠ [] := by rw [hr]; simp
        rw [rstrip_cons_of_ne_nil hne]
        exact lstrip_cons_of_not_ws hw'

theorem trim_lstrip (s : Str) : trim (lstrip s) = trim s := by
  unfold trim
  rw [lstrip_idem]

theorem trim_rstrip (s : Str) : trim (rstrip s) = trim s := by
  unfold trim
  rw [lstrip_rstrip_comm, rstrip_idem]

theorem trim_trim (s : Str) : trim (trim s) = trim s := by
  unfold trim
  rw [lstrip_rstrip_comm, lstrip_idem, rstrip_idem]

theorem map_trim_modHead (L : List Str) :
    (modHead lstrip L).map trim = L.map trim := by
  cases L with
  | nil => rfl
  | cons t ts => simp [modHead, trim_lstrip]

theorem map_trim_modLast (L : List Str) :
    (modLast rstrip L).map trim = L.map trim := by
  induction L with
  | nil => rfl
  | cons t ts ih =>
    cases ts with
    | nil => simp [modLast, trim_rstrip]
    | cons u us =>
      simp only [modLast, List.map_cons]
      rw [show (modLast rstrip (u :: us)).map trim = (u :: us).map trim from ih]
      simp

/-- The token lists the code and the spec produce coincide before filtering:
splitting the trimmed string and trimming each token equals splitting the raw
string and trimming each token. -/
theorem map_trim_splitComma_trim (s : Str) :
    (splitComma (trim s)).map trim = (splitComma s).map trim := by
  have h : splitComma (trim s) =
      modLast rstrip (modHead lstrip (splitComma s)) := by
    rw [show trim s = rstrip (lstrip s) from rfl, splitComma_rstrip,
      splitComma_lstrip]
  rw [h, map_trim_modLast, map_trim_modHead]

/-- `parseTags` computes exactly the spec's split-trim-filter tag list. -/
theorem parseTags_eq_spec (kw : Str) :
    parseTags kw = ((splitComma kw).map trim).filter (fun t => !t.isEmpty) := by
  unfold parseTags
  rw [map_trim_splitComma_trim]

/-- The tag list the row loop computes agrees with the spec's description for
every possible `Keywords` field, including absent and blank ones. -/
theorem tagsOf_eq_spec (row : CSVRecipe) :
    tagsOf row = specTags row.keywords := by
  unfold tagsOf keywordsBranch
  cases hk : row.keywords with
  | none => simp [truthy, specTags]
  | some kw =>
    simp only [Option.getD_some]
    by_cases h1 : kw.isEmpty
    · have : kw = [] := by simpa [List.isEmpty_iff] using h1
      subst this
      simp [truthy, specTags, splitComma, trim, lstrip, rstrip]
    · by_cases h2 : (trim kw).isEmpty
      · have htr : trim kw = [] := by simpa [List.isEmpty_iff] using h2
        have hsp : splitComma kw = [kw] :=
          noComma_splitComma (all_ws_no_comma (trim_eq_nil htr))
        simp [truthy, h1, h2, specTags, hsp, htr]
      · simp [truthy, h1, h2, specTags, parseTags_eq_spec]

/-! ### Option and validation helpers -/

theorem truthy_iff (o : Option Str) :
    truthy o = true ↔ o ≠ none ∧ o ≠ some [] := by
  cases o with
  | none => simp [truthy]
  | some t => cases t <;> simp [truthy]

/-- Membership in a spec tag list: every tag is its own trim and non-empty. -/
theorem mem_specTags {t : Str} {kw : Option Str} (h : t ∈ specTags kw) :
    trim t = t ∧ t ≠ [] := by
  cases kw with
  | none => simp [specTags] at h
  | some k =>
    unfold specTags at h
    have h1 := List.of_mem_filter h
    have h2 := List.mem_of_mem_filter h
    constructor
    · rcases List.mem_map.mp h2 with ⟨x, _, hx⟩
      rw [← hx, trim_trim]
    · intro he
      rw [he] at h1
      simp at h1

/-- A blank-after-trim Keywords value yields the empty spec tag list. -/
theorem specTags_blank {kw : Str} (h : trim kw = []) :
    specTags (some kw) = [] := by
  have hsp : splitComma kw = [kw] :=
    noComma_splitComma (all_ws_no_comma (trim_eq_nil h))
  rw [show specTags (some kw)
      = ((splitComma kw).map trim).filter (fun t => !t.isEmpty) from rfl, hsp]
  simp [List.filter, h]

/-! ### Branch equations for `processRow` -/

theorem processRow_invalid (cfg : Config) (env : RowEnv) {row : CSVRecipe}
    (s : Storage) (hv : validateRow row = false) :
    processRow cfg env row s =
      (⟨false, [skipMsg row.recipeTitle], [Stage.failed]⟩, s) := by
  unfold processRow
  rw [hv]
  rfl

theorem processRow_noCuisine (cfg : Config) {env : RowEnv} {row : CSVRecipe}
    {s : Storage} (hv : validateRow row = true)
    (hc : numTruthy (findOrCreateCuisine env.cuisineCreateFails row.country s).1
      = false) :
    processRow cfg env row s =
      (⟨false, [cuisineMsg row], preTraceOf row ++ [Stage.failed]⟩,
        (findOrCreateCuisine env.cuisineCreateFails row.country s).2) := by
  simp [processRow, hv, hc]

theorem processRow_persistFail (cfg : Config) {env : RowEnv} {row : CSVRecipe}
    {s : Storage} {m : Str} (hv : validateRow row = true)
    (hc : numTruthy (findOrCreateCuisine env.cuisineCreateFails row.country s).1
      = true)
    (hm : env.recipeCreateFails = some m) :
    processRow cfg env row s =
      (⟨false, [persistMsg row m],
        preTraceOf row ++ [Stage.cuisineResolved, Stage.failed]⟩,
        (findOrCreateCuisine env.cuisineCreateFails row.country s).2) := by
  simp [processRow, hv, hc, hm]

theorem processRow_success (cfg : Config) {env : RowEnv} {row : CSVRecipe}
    {s : Storage} (hv : validateRow row = true)
    (hc : numTruthy (findOrCreateCuisine env.cuisineCreateFails row.country s).1
      = true)
    (hm : env.recipeCreateFails = none) :
    processRow cfg env row s =
      (⟨true, [], preTraceOf row ++ [Stage.cuisineResolved, Stage.persisted]⟩,
        (createRecipe (findOrCreateCuisine env.cuisineCreateFails row.country s).2
          (mkRecipe row
            (((findOrCreateCuisine env.cuisineCreateFails row.country s).1).getD 0)
            (tagsOf row) (featuredImageOf cfg env row) cfg.authorId)).2) := by
  simp [processRow, hv, hc, hm]

/-! ### Storage-effect lemmas -/

theorem createRecipe_cuisines (s : Storage) (r : Recipe) :
    (createRecipe s r).2.cuisines = s.cuisines := rfl

theorem createRecipe_recipes (s : Storage) (r : Recipe) :
    (createRecipe s r).2.recipes = s.recipes ++ [{ r with id := s.nextRecipeId }] :=
  rfl

/-- `findOrCreateCuisine` either leaves the storage untouched or appends one
new active cuisine whose lowercase name matches no existing active cuisine. -/
theorem findOrCreateCuisine_state (fail : Bool) (name : Option Str)
    (s : Storage) :
    (findOrCreateCuisine fail name s).2 = s ∨
    ∃ cand, (∀ c ∈ getCuisines s, lowerStr c.name ≠ lowerStr cand) ∧
      (findOrCreateCuisine fail name s).2 =
        { s with cuisines := s.cuisines ++ [⟨s.nextCuisineId, cand, true⟩],
                 nextCuisineId := s.nextCuisineId + 1 } := by
  unfold findOrCreateCuisine
  cases name with
  | none => left; rfl
  | some n =>
    by_cases h1 : n.isEmpty
    · left; simp [h1]
    · by_cases h2 : (trim n).isEmpty
      · left; simp [h1, h2]
      · simp only [h1, h2, Bool.false_eq_true, if_false]
        cases hf : (getCuisines s).find?
            (fun c => lowerStr c.name = lowerStr
              ((countryToCuisineMap (trim n)).getD (trim n))) with
        | some c => left; simp [hf]
        | none =>
          unfold createCuisine
          by_cases h3 : (fail || s.cuisines.any
              (fun c => c.name = (countryToCuisineMap (trim n)).getD (trim n)))
          · left; simp [hf, h3]
          · right
            refine ⟨(countryToCuisineMap (trim n)).getD (trim n), ?_, ?_⟩
            · intro c hc
              have := List.find?_eq_none.mp hf c hc
              simpa using this
            · simp [hf, h3]

theorem findOrCreateCuisine_recipes (fail : Bool) (name : Option Str)
    (s : Storage) :
    (findOrCreateCuisine fail name s).2.recipes = s.recipes := by
  rcases findOrCreateCuisine_state fail name s with he | ⟨cand, _, he⟩ <;>
    rw [he]

theorem findOrCreateCuisine_nextRecipeId (fail : Bool) (name : Option Str)
    (s : Storage) :
    (findOrCreateCuisine fail name s).2.nextRecipeId = s.nextRecipeId := by
  rcases findOrCreateCuisine_state fail name s with he | ⟨cand, _, he⟩ <;>
    rw [he]

/-- `find?` returns the unique element satisfying the predicate when there is
exactly one. -/
theorem find?_of_unique {α : Type} {p : α → Bool} {l : List α} {c : α}
    (hm : c ∈ l) (hp : p c = true) (hu : ∀ x ∈ l, p x = true → x = c) :
    l.find? p = some c := by
  induction l with
  | nil => simp at hm
  | cons a t ih =>
    rcases List.mem_cons.mp hm with h | h
    · subst h
      rw [List.find?_cons_of_pos _ hp]
    · by_cases ha : p a
      · have : a = c := hu a (List.mem_cons_self a t) ha
        subst this
        rw [List.find?_cons_of_pos _ ha]
      · rw [List.find?_cons_of_neg _ (by simpa using ha)]
        exact ih h (fun x hx hpx => hu x (List.mem_cons_of_mem a hx) hpx)

/-- The cuisine-store invariant is preserved by `findOrCreateCuisine`. -/
theorem cuisineInv_findOrCreateCuisine (fail : Bool) (name : Option Str)
    {s : Storage} (h : CuisineInv s) :
    CuisineInv (findOrCreateCuisine fail name s).2 := by
  rcases findOrCreateCuisine_state fail name s with he | ⟨cand, hno, he⟩
  · rw [he]; exact h
  · rw [he]
    unfold CuisineInv getCuisines at h ⊢
    simp only [List.filter_append]
    rw [List.pairwise_append]
    refine ⟨h, ?_, ?_⟩
    · simp
    · intro a ha b hb
      have hb' : b = (⟨s.nextCuisineId, cand, true⟩ : Cuisine) := by
        simpa using hb
      rw [hb']
      exact hno a ha

/-- The cuisine-store invariant is preserved by one row of the pipeline. -/
theorem cuisineInv_processRow (cfg : Config) (env : RowEnv) (row : CSVRecipe)
    {s : Storage} (h : CuisineInv s) :
    CuisineInv (processRow cfg env row s).2 := by
  by_cases hv : validateRow row
  · by_cases hc : numTruthy
        (findOrCreateCuisine env.cuisineCreateFails row.country s).1
    · cases hm : env.recipeCreateFails with
      | none =>
        rw [processRow_success cfg hv hc hm]
        have hfc := cuisineInv_findOrCreateCuisine env.cuisineCreateFails
          row.country h
        unfold CuisineInv getCuisines at hfc ⊢
        rw [createRecipe_cuisines]
        exact hfc
      | some m =>
        rw [processRow_persistFail cfg hv hc hm]
        exact cuisineInv_findOrCreateCuisine env.cuisineCreateFails
          row.country h
    · rw [processRow_noCuisine cfg hv (by simpa using hc)]
      exact cuisineInv_findOrCreateCuisine env.cuisineCreateFails row.country h
  · rw [processRow_invalid cfg env s (by simpa using hv)]
    exact h

/-- Exactly one terminal outcome per row: success with no error string, or no
success with exactly one error string. -/
theorem processRow_outcome (cfg : Config) (env : RowEnv) (row : CSVRecipe)
    (s : Storage) :
    ((processRow cfg env row s).1.success = true ∧
      (processRow cfg env row s).1.errs = []) ∨
    ((processRow cfg env row s).1.success = false ∧
      ((processRow cfg env row s).1.errs).length = 1) := by
  by_cases hv : validateRow row
  · by_cases hc : numTruthy
        (findOrCreateCuisine env.cuisineCreateFails row.country s).1
    · cases hm : env.recipeCreateFails with
      | none => left; rw [processRow_success cfg hv hc hm]; exact ⟨rfl, rfl⟩
      | some m =>
        right; rw [processRow_persistFail cfg hv hc hm]; exact ⟨rfl, rfl⟩
    · right
      rw [processRow_noCuisine cfg hv (by simpa using hc)]
      exact ⟨rfl, rfl⟩
  · right
    rw [processRow_invalid cfg env s (by simpa using hv)]
    exact ⟨rfl, rfl⟩

/-- One row appends either no recipe or exactly one, and an appended recipe is
unapproved, attributed to the job's author, and tagged with the row's tags. -/
theorem processRow_recipes (cfg : Config) (env : RowEnv) (row : CSVRecipe)
    (s : Storage) :
    (processRow cfg env row s).2.recipes = s.recipes ∨
    ∃ rec, (processRow cfg env row s).2.recipes = s.recipes ++ [rec] ∧
      rec.isApproved = false ∧ rec.authorId = cfg.authorId ∧
      rec.tags = tagsOf row := by
  by_cases hv : validateRow row
  · by_cases hc : numTruthy
        (findOrCreateCuisine env.cuisineCreateFails row.country s).1
    · cases hm : env.recipeCreateFails with
      | none =>
        right
        rw [processRow_success cfg hv hc hm, createRecipe_recipes]
        rw [findOrCreateCuisine_recipes]
        exact ⟨_, rfl, rfl, rfl, rfl⟩
      | some m =>
        left
        rw [processRow_persistFail cfg hv hc hm, findOrCreateCuisine_recipes]
    · left
      rw [processRow_noCuisine cfg hv (by simpa using hc),
        findOrCreateCuisine_recipes]
  · left
    rw [processRow_invalid cfg env s (by simpa using hv)]

/-- A row environment whose image probe throws (network error). -/
def env₁ : RowEnv := ⟨.fetchError, false, none⟩

/-! ### Claim theorems -/

/-- C1: for every job over a list of parsed rows, the returned result
satisfies `success + |errors| = N`: every parsed row contributes exactly one
terminal outcome — an increment of the success count or exactly one appended
error string (rows skipped for missing required fields land in the latter). -/
theorem claim_C1_accounting (cfg : Config) (rows : List (CSVRecipe × RowEnv))
    (s : Storage) :
    (runImport cfg rows s).1.success +
      ((runImport cfg rows s).1.errors).length = rows.length := by
  induction rows generalizing s with
  | nil => simp [runImport]
  | cons p rest ih =>
    simp only [runImport, List.length_cons]
    rw [List.length_append]
    have hih := ih (processRow cfg p.2 p.1 s).2
    rcases processRow_outcome cfg p.2 p.1 s with ⟨hs, he⟩ | ⟨hs, he⟩
    · rw [hs, he]
      simp
      omega
    · rw [hs, he]
      simp
      omega

/-- C5: an unreachable or failing image URL never prevents recipe creation —
`validateS3ImageUrl` returns its input URL in every branch (own-bucket, ok,
non-ok, thrown fetch error), and a row that passes validation and cuisine
resolution is persisted and counted with no error entry, whatever the image
probe did. -/
theorem claim_C5_image_never_fatal :
    (∀ bucket fetch url, validateS3ImageUrl bucket fetch url = url) ∧
    ∀ cfg env row s, validateRow row = true →
      numTruthy (findOrCreateCuisine env.cuisineCreateFails row.country s).1
        = true →
      env.recipeCreateFails = none →
      (processRow cfg env row s).1.success = true ∧
      (processRow cfg env row s).1.errs = [] ∧
      ∃ rec, (processRow cfg env row s).2.recipes = s.recipes ++ [rec] := by
  constructor
  · intro bucket fetch url
    unfold validateS3ImageUrl
    split
    · rfl
    · cases fetch <;> rfl
  · intro cfg env row s hv hc hm
    rw [processRow_success cfg hv hc hm]
    refine ⟨rfl, rfl, ?_⟩
    rw [createRecipe_recipes, findOrCreateCuisine_recipes]
    exact ⟨_, rfl⟩

/-- C5 witness: a concrete row whose image probe throws still yields a
persisted, counted recipe and an unchanged URL. -/
theorem claim_C5_image_never_fatal_witness :
    validateS3ImageUrl cfg₀.bucket FetchOutcome.fetchError
        "http://img.example/t.jpg".data = "http://img.example/t.jpg".data ∧
    (processRow cfg₀ env₁ rowTacos s₀).1.success = true ∧
    (processRow cfg₀ env₁ rowTacos s₀).1.errs = [] ∧
    ∃ rec, (processRow cfg₀ env₁ rowTacos s₀).2.recipes = s₀.recipes ++ [rec] :=
  ⟨claim_C5_image_never_fatal.1 cfg₀.bucket FetchOutcome.fetchError
      "http://img.example/t.jpg".data,
    claim_C5_image_never_fatal.2 cfg₀ env₁ rowTacos s₀ (by decide) (by decide)
      rfl⟩

/-- C7: a row that fails validation is fully skipped — the storage is
untouched (so no cuisine and no recipe is created for it), the success count
is not incremented, exactly the one skip message is appended, and the trace
records no image, cuisine, or persistence stage. -/
theorem claim_C7_skipped_row_frame (cfg : Config) (env : RowEnv)
    (row : CSVRecipe) (s : Storage) (hv : validateRow row = false) :
    (processRow cfg env row s).2 = s ∧
    (processRow cfg env row s).1.success = false ∧
    (processRow cfg env row s).1.errs = [skipMsg row.recipeTitle] ∧
    (processRow cfg env row s).1.trace = [Stage.failed] := by
  rw [processRow_invalid cfg env s hv]
  exact ⟨rfl, rfl, rfl, rfl⟩

/-- C7 witness at a concrete row with no Method column. -/
theorem claim_C7_skipped_row_frame_witness :
    validateRow rowNoMethod = false ∧
    (processRow cfg₀ env₀ rowNoMethod s₀).2 = s₀ ∧
    (processRow cfg₀ env₀ rowNoMethod s₀).1.success = false ∧
    (processRow cfg₀ env₀ rowNoMethod s₀).1.errs
      = [skipMsg rowNoMethod.recipeTitle] ∧
    (processRow cfg₀ env₀ rowNoMethod s₀).1.trace = [Stage.failed] :=
  ⟨by decide, claim_C7_skipped_row_frame cfg₀ env₀ rowNoMethod s₀ (by decide)⟩

/-- C8: processing a job's rows sequentially preserves the invariant that at
most one active cuisine exists per case-insensitive name. -/
theorem claim_C8_cuisine_inv_preserved (cfg : Config)
    (rows : List (CSVRecipe × RowEnv)) {s : Storage} (h : CuisineInv s) :
    CuisineInv (runImport cfg rows s).2 := by
  induction rows generalizing s with
  | nil => simpa [runImport] using h
  | cons p rest ih =>
    simp only [runImport]
    exact ih (cuisineInv_processRow cfg p.2 p.1 h)

/-- C8 witness: the invariant holds for the empty store and is preserved
across a concrete two-row job. -/
theorem claim_C8_cuisine_inv_preserved_witness :
    CuisineInv s₀ ∧
    CuisineInv (runImport cfg₀ [(rowItaly, env₀), (rowitaly, env₀)] s₀).2 :=
  ⟨by unfold CuisineInv; decide,
    claim_C8_cuisine_inv_preserved cfg₀ [(rowItaly, env₀), (rowitaly, env₀)]
      (by unfold CuisineInv; decide)⟩

/-- C9: every recipe the import pipeline creates is persisted with
`isApproved = false` and with the author identity supplied to the job. -/
theorem claim_C9_approval_and_author (cfg : Config)
    (rows : List (CSVRecipe × RowEnv)) (s : Storage) :
    ∃ new, (runImport cfg rows s).2.recipes = s.recipes ++ new ∧
      ∀ r ∈ new, r.isApproved = false ∧ r.authorId = cfg.authorId := by
  induction rows generalizing s with
  | nil => exact ⟨[], by simp [runImport], by simp⟩
  | cons p rest ih =>
    simp only [runImport]
    obtain ⟨new2, h2, hp2⟩ := ih (processRow cfg p.2 p.1 s).2
    rcases processRow_recipes cfg p.2 p.1 s with h1 | ⟨rec, h1, hA, hB, _⟩
    · exact ⟨new2, by rw [h2, h1], hp2⟩
    · refine ⟨rec :: new2, ?_, ?_⟩
      · rw [h2, h1]
        simp
      · intro r hr
        rcases List.mem_cons.mp hr with hr | hr
        · rw [hr]; exact ⟨hA, hB⟩
        · exact hp2 r hr

/-- C9 witness at a concrete one-row job. -/
theorem claim_C9_approval_and_author_witness :
    ∃ new, (runImport cfg₀ [(rowTacos, env₀)] s₀).2.recipes
        = s₀.recipes ++ new ∧
      ∀ r ∈ new, r.isApproved = false ∧ r.authorId = cfg₀.authorId :=
  claim_C9_approval_and_author cfg₀ [(rowTacos, env₀)] s₀

/-- C2 counterexample: the row whose title is a single space is accepted by
the code's validation (truthiness only), yet its title is blank after
trimming, so validation does not coincide with the claimed
present-and-non-blank-after-trimming criterion. -/
theorem claim_C2_counterexample :
    validateRow rowBlankTitle = true ∧ specValidates rowBlankTitle = false ∧
    ¬ (validateRow rowBlankTitle = true ↔
        specValidates rowBlankTitle = true) := by
  decide

/-- C2 (amended): validation succeeds iff `Recipe Title`, `Ingredients` and
`Method` are all present and non-empty — no trimming is applied, so
whitespace-only values pass — and a failing row appends exactly the skip
message naming the raw title, with the placeholder "Unknown" when the title
is absent or empty. -/
theorem claim_C2_validation (cfg : Config) (env : RowEnv) (row : CSVRecipe)
    (s : Storage) :
    (validateRow row = true ↔
      (row.recipeTitle ≠ none ∧ row.recipeTitle ≠ some [] ∧
       row.ingredients ≠ none ∧ row.ingredients ≠ some [] ∧
       row.method ≠ none ∧ row.method ≠ some [])) ∧
    (validateRow row = false →
      (processRow cfg env row s).1.errs =
        ["Skipping recipe \"".data ++
          (match row.recipeTitle with
           | none => "Unknown".data
           | some [] => "Unknown".data
           | some (c :: t) => c :: t) ++
          "\": Missing required fields".data]) := by
  constructor
  · simp only [validateRow, Bool.and_eq_true, truthy_iff]
    tauto
  · intro hv
    rw [processRow_invalid cfg env s hv]
    unfold skipMsg
    cases h : row.recipeTitle with
    | none => simp [truthy]
    | some t => cases t <;> simp [truthy]

/-- C2 witness: the row missing its Method column is rejected with the
expected message naming its raw title. -/
theorem claim_C2_validation_witness :
    (processRow cfg₀ env₀ rowNoMethod s₀).1.errs
      = ["Skipping recipe \"".data ++ "Tacos".data
          ++ "\": Missing required fields".data] := by
  have h := (claim_C2_validation cfg₀ env₀ rowNoMethod s₀).2 (by decide)
  rw [h]
  decide

/-- C3 counterexample: importing rows with countries "Italy" and "italy" into
an empty store creates two cuisines ("Italian" and "italy"), and the two
recipes reference different cuisine identifiers — not one shared "Italian". -/
theorem claim_C3_counterexample :
    (runImport cfg₀ [(rowItaly, env₀), (rowitaly, env₀)] s₀).2.cuisines
      = [⟨1, "Italian".data, true⟩, ⟨2, "italy".data, true⟩] ∧
    (runImport cfg₀ [(rowItaly, env₀), (rowitaly, env₀)] s₀).2.recipes.map
        (fun r => r.cuisineId) = [1, 2] := by
  decide

/-- C3 (amended): the canonicalization table is consulted by case-sensitive
exact key, so "Italy"/"italy" yields two cuisines — "Italian" via the table
and "italy" via the identity fallback, referenced by the respective recipes —
while two rows both reading "Italy" do share the single cuisine "Italian". -/
theorem claim_C3_case_sensitive_dedup :
    (countryToCuisineMap "italy".data = none ∧
     (runImport cfg₀ [(rowItaly, env₀), (rowitaly, env₀)] s₀).2.cuisines.map
        (fun c => c.name) = ["Italian".data, "italy".data]) ∧
    ((runImport cfg₀ [(rowItaly, env₀), (rowItaly, env₀)] s₀).2.cuisines.map
        (fun c => c.name) = ["Italian".data] ∧
     (runImport cfg₀ [(rowItaly, env₀), (rowItaly, env₀)] s₀).2.recipes.map
        (fun r => r.cuisineId) = [1, 1]) := by
  decide

/-- C4 counterexample: a concrete valid row with an image URL produces the
trace Validated, ImageResolved, CuisineResolved, Persisted — image-resolution
work happens before cuisine resolution, refuting the claimed order. -/
theorem claim_C4_counterexample :
    (processRow cfg₀ env₀ rowTacos s₀).1.trace
      = [Stage.validated, Stage.imageResolved, Stage.cuisineResolved,
         Stage.persisted] ∧
    ¬ cuisineBeforeImage (processRow cfg₀ env₀ rowTacos s₀).1.trace := by
  constructor
  · decide
  · unfold cuisineBeforeImage
    decide

/-- C4 (amended): for every row the stages run in the order Validated, then
ImageResolved (when image work happens), then CuisineResolved, then
Persisted — the trace is strictly increasing in that order, and persistence
occurs only after validation and cuisine resolution. -/
theorem claim_C4_stage_order (cfg : Config) (env : RowEnv) (row : CSVRecipe)
    (s : Storage) :
    List.Chain' (fun a b => stageIdx a < stageIdx b)
      (processRow cfg env row s).1.trace ∧
    (Stage.persisted ∈ (processRow cfg env row s).1.trace →
      Stage.validated ∈ (processRow cfg env row s).1.trace ∧
      Stage.cuisineResolved ∈ (processRow cfg env row s).1.trace) := by
  by_cases hv : validateRow row
  · by_cases hc : numTruthy
        (findOrCreateCuisine env.cuisineCreateFails row.country s).1
    · cases hm : env.recipeCreateFails with
      | none =>
        rw [processRow_success cfg hv hc hm]
        by_cases hi : imageBranch row <;> simp [preTraceOf, hi] <;> decide
      | some m =>
        rw [processRow_persistFail cfg hv hc hm]
        by_cases hi : imageBranch row <;> simp [preTraceOf, hi] <;> decide
    · rw [processRow_noCuisine cfg hv (by simpa using hc)]
      by_cases hi : imageBranch row <;> simp [preTraceOf, hi] <;> decide
  · rw [processRow_invalid cfg env s (by simpa using hv)]
    constructor <;> simp

/-- C4 witness at a concrete row reaching every stage. -/
theorem claim_C4_stage_order_witness :
    List.Chain' (fun a b => stageIdx a < stageIdx b)
      (processRow cfg₀ env₀ rowTacos s₀).1.trace ∧
    (Stage.persisted ∈ (processRow cfg₀ env₀ rowTacos s₀).1.trace →
      Stage.validated ∈ (processRow cfg₀ env₀ rowTacos s₀).1.trace ∧
      Stage.cuisineResolved ∈ (processRow cfg₀ env₀ rowTacos s₀).1.trace) :=
  claim_C4_stage_order cfg₀ env₀ rowTacos s₀

/-- C6 counterexample: with only an inactive cuisine "wakanda" in the store —
a case-insensitive match for the candidate "Wakanda" — the resolver does not
return that cuisine's identifier; it creates a new cuisine instead, because
the lookup consults active cuisines only. -/
theorem claim_C6_counterexample :
    (∃ c ∈ sLower.cuisines,
      lowerStr c.name = lowerStr (candidateOf "Wakanda".data)) ∧
    (findOrCreateCuisine false (some "Wakanda".data) sLower).1 = some 2 ∧
    ((findOrCreateCuisine false (some "Wakanda".data) sLower).2.cuisines).length
      = 2 := by
  decide

/-- C6 (amended): for a non-blank country, the candidate is the table image of
the trimmed input or the trimmed input itself; if an existing **active**
cuisine matches the candidate case-insensitively (uniquely so), its identifier
is returned and nothing is created; otherwise, provided no stored cuisine
already bears the exact candidate name (the unique constraint), exactly one
new active cuisine with the candidate name is created and its identifier
returned. -/
theorem claim_C6_resolution (s : Storage) (country : Str)
    (h : trim country ≠ []) :
    (∀ c, c ∈ s.cuisines → c.isActive = true →
      lowerStr c.name = lowerStr (candidateOf country) →
      (∀ c', c' ∈ s.cuisines → c'.isActive = true →
        lowerStr c'.name = lowerStr (candidateOf country) → c' = c) →
      findOrCreateCuisine false (some country) s = (some c.id, s)) ∧
    ((∀ c, c ∈ s.cuisines → c.isActive = true →
        lowerStr c.name ≠ lowerStr (candidateOf country)) →
      (∀ c, c ∈ s.cuisines → c.name ≠ candidateOf country) →
      findOrCreateCuisine false (some country) s =
        (some s.nextCuisineId,
         { s with
            cuisines := s.cuisines
              ++ [⟨s.nextCuisineId, candidateOf country, true⟩],
            nextCuisineId := s.nextCuisineId + 1 })) := by
  have hce : country.isEmpty = false := by
    cases country with
    | nil => exact absurd rfl h
    | cons a l => rfl
  have hte : (trim country).isEmpty = false := by
    cases htc : trim country with
    | nil => exact absurd htc h
    | cons a l => rfl
  constructor
  · intro c hmem hact hmatch huniq
    have hfind : (getCuisines s).find?
        (fun c' => lowerStr c'.name
          = lowerStr ((countryToCuisineMap (trim country)).getD (trim country)))
        = some c := by
      apply find?_of_unique
      · exact List.mem_filter.mpr ⟨hmem, by simpa using hact⟩
      · simpa [candidateOf] using hmatch
      · intro x hx hpx
        have hx' := List.mem_filter.mp hx
        exact huniq x hx'.1 (by simpa using hx'.2)
          (by simpa [candidateOf] using hpx)
    unfold findOrCreateCuisine
    simp [hce, hte, hfind]
  · intro h1 h2
    have hfind : (getCuisines s).find?
        (fun c' => lowerStr c'.name
          = lowerStr ((countryToCuisineMap (trim country)).getD (trim country)))
        = none := by
      apply List.find?_eq_none.mpr
      intro x hx
      have hx' := List.mem_filter.mp hx
      simpa [candidateOf] using h1 x hx'.1 (by simpa using hx'.2)
    have hany : (s.cuisines.any
        (fun c => c.name
          = (countryToCuisineMap (trim country)).getD (trim country))) = false := by
      rw [List.any_eq_false]
      intro x hx
      simpa [candidateOf] using h2 x hx
    unfold findOrCreateCuisine createCuisine
    simp [hce, hte, hfind, hany, candidateOf]

/-- C6 witness: unmapped "Wakanda" on the empty store creates exactly one
active cuisine named "Wakanda" and returns its identifier. -/
theorem claim_C6_resolution_witness :
    findOrCreateCuisine false (some "Wakanda".data) s₀ =
      (some 1,
       { s₀ with cuisines := [⟨1, "Wakanda".data, true⟩],
                 nextCuisineId := 2 }) := by
  have h := (claim_C6_resolution s₀ "Wakanda".data (by decide)).2
    (by intro c hc; simp [s₀] at hc) (by intro c hc; simp [s₀] at hc)
  exact h.trans (by decide)

/-- The recipe created for `rowTacos` from the empty store. -/
def recTacos : Recipe :=
  ⟨1, "Tacos".data, [], "salt".data, "cook".data, [], 1,
    ["quick".data, "easy".data], "http://img.example/t.jpg".data, false,
    "user-1".data⟩

/-- C10: a recipe appended for a row carries exactly the spec's tag list —
the row's `Keywords` split on commas, tokens trimmed, empties dropped; the
empty list when `Keywords` is absent or blank after trimming — and every tag
is non-blank and free of surrounding whitespace. -/
theorem claim_C10_tags (cfg : Config) (env : RowEnv) (row : CSVRecipe)
    (s : Storage) (rec : Recipe)
    (h : (processRow cfg env row s).2.recipes = s.recipes ++ [rec]) :
    rec.tags = specTags row.keywords ∧
    (∀ t ∈ rec.tags, trim t = t ∧ t ≠ []) ∧
    ((row.keywords = none ∨ trim (row.keywords.getD []) = []) →
      rec.tags = []) := by
  have htags : rec.tags = tagsOf row := by
    rcases processRow_recipes cfg env row s with h1 | ⟨rec', h1, _, _, ht⟩
    · rw [h1] at h
      exact absurd h.symm (by simp)
    · rw [h1] at h
      have h2 : rec' = rec := by
        have h3 := List.append_cancel_left h
        simpa using h3
      rw [← h2, ht]
  rw [htags, tagsOf_eq_spec]
  refine ⟨rfl, ?_, ?_⟩
  · intro t ht'
    exact mem_specTags ht'
  · intro hcase
    cases hkk : row.keywords with
    | none => rfl
    | some kw =>
      rcases hcase with hk | hk
      · rw [hkk] at hk; cases hk
      · rw [hkk] at hk
        simp only [Option.getD_some] at hk
        exact specTags_blank hk

/-- C10 witness: the concrete row with Keywords " quick, easy " yields the
tags ["quick", "easy"], each trimmed and non-empty. -/
theorem claim_C10_tags_witness :
    (processRow cfg₀ env₀ rowTacos s₀).2.recipes = s₀.recipes ++ [recTacos] ∧
    recTacos.tags = specTags rowTacos.keywords ∧
    ∀ t ∈ recTacos.tags, trim t = t ∧ t ≠ [] := by
  have hp : (processRow cfg₀ env₀ rowTacos s₀).2.recipes
      = s₀.recipes ++ [recTacos] := by decide
  have h := claim_C10_tags cfg₀ env₀ rowTacos s₀ recTacos hp
  exact ⟨hp, h.1, h.2.1⟩

end VeganBites
